import Mathlib

/-!
Verification development for the strategy_v7 core of the Agnirath solar-car
repository (config.py, car.py, solar.py, constraints.py, profiles.py).

The Python code computes elementwise over numpy arrays of exact decimal
constants; it is embedded here over `ℚ` with arrays as `List ℚ`.  The only
transcendental functions the core uses are `np.sin (np.radians slope)` in
`calculate_power` and `np.exp` in the solar model; they are abstracted as
explicit function parameters `sind : ℚ → ℚ` (for `x ↦ sin (x·π/180)`) and
`qexp : ℚ → ℚ` (for `x ↦ exp x`), so every theorem below quantifies over
them.  Where a concrete instance is needed the inputs are arranged so that
the chosen rational stand-in agrees with the real function at every point
at which it is actually evaluated (e.g. slope 0 with `sind := fun _ => 0`,
or an exponential argument of exactly 0 with `qexp := fun _ => 1`).

The `while True:` thermal fixed-point loop of `calculate_power` has no
iteration bound in the source; it is embedded as a fuel-indexed recursion
(`thermalLoop`), `none` meaning the loop has not exited within `fuel`
iterations.  All other fallible paths (numpy length mismatches) also
return `none`.
-/

set_option maxRecDepth 10000

namespace Agnirath

/-! ### config.py -/

def RaceStartTime : ℚ := 9 * 3600

def RaceEndTime : ℚ := (12 + 5) * 3600

def BatteryCapacity : ℚ := 3055

def DeepDischargeCap : ℚ := 0.2

def InitialBatteryCapacity : ℚ := BatteryCapacity * 0.36

def R_Out : ℚ := 0.2785

def Mass : ℚ := 260

def ZeroSpeedCrr : ℚ := 0.0045

def Cd : ℚ := 0.092

def FrontalArea : ℚ := 1

def CDA : ℚ := Cd * FrontalArea

def PanelArea : ℚ := 6

def PanelEfficiency : ℚ := 0.19

def BusVoltage : ℚ := 4.2 * 38

def AirDensity : ℚ := 1.192

def GravityAcc : ℚ := 9.81

def Ta : ℚ := 295

def MaxVelocity : ℚ := 35

def MaxCurrent : ℚ := 12.3

/-! ### car.py -/

def EPSILON : ℚ := 1 / 10 ^ 8

def frictional_tou : ℚ := R_Out * Mass * GravityAcc * ZeroSpeedCrr

def drag_coeff : ℚ := 0.5 * CDA * AirDensity * R_Out ^ 3

def drag_coeff_wR2 : ℚ := drag_coeff / R_Out ^ 2

def slope_coeff : ℚ := Mass * GravityAcc

def windage_losses_coeff_wR2 : ℚ := 170.4 * (1 / 10 ^ 6) / R_Out ^ 2

/-- Elementwise `np.abs` on an exact rational. -/
def npabs (x : ℚ) : ℚ := if x < 0 then -x else x

/-- Elementwise `np.clip(·, min=0)` on an exact rational. -/
def clip0 (x : ℚ) : ℚ := if x < 0 then 0 else x

/-- One pass of the body of the `while True:` winding-temperature loop of
`calculate_power` in car.py: from the current winding temperature `Twi` it
computes the copper loss `Pc`, the eddy loss `Pe`, and the updated
temperature `Tw = 0.455*(Pc + Pe) + Ta`; the result is `(Pc, Pe, Tw)`. -/
def thermalBody (tou speed2 Twi : ℚ) : ℚ × ℚ × ℚ :=
  let B := 1.6716 - 0.0006 * (Ta + Twi)
  let i := 0.561 * B * tou
  let resistance := 0.00022425 * Twi - 0.00820525
  let Pc := 3 * i ^ 2 * resistance
  let Pe := 9.602 * (1 / 10 ^ 6) * ((B / R_Out) ^ 2) / resistance * speed2
  (Pc, Pe, 0.455 * (Pc + Pe) + Ta)

/-- The `while True:` loop of `calculate_power`, run for at most `fuel`
iterations from temperature `Twi`: it exits with the `(Pc, Pe)` of the
iteration at which `|Tw − Twi| < 0.001` first holds (the source keeps the
losses computed from the pre-update temperature of that iteration), and
`none` means the source loop has not exited within `fuel` iterations.
The source loop is elementwise over arrays (`np.where` freezes converged
elements, the loop breaks when all have converged), so each element runs
exactly this scalar iteration; the array loop exits iff every element's
scalar loop exits. -/
def thermalLoop (tou speed2 : ℚ) : ℕ → ℚ → Option (ℚ × ℚ)
  | 0, _ => none
  | fuel + 1, Twi =>
    let r := thermalBody tou speed2 Twi
    if npabs (r.2.2 - Twi) < 0.001 then some (r.1, r.2.1)
    else thermalLoop tou speed2 fuel r.2.2

/-- calculate_power from car.py for one array element: net power consumption
and output power from speed, acceleration and slope.  `sind` abstracts
`np.sin (np.radians ·)`; `fuel` bounds the thermal loop. -/
def calculate_power (sind : ℚ → ℚ) (fuel : ℕ) (speed acceleration slope : ℚ) :
    Option (ℚ × ℚ) :=
  let speed2 := speed ^ 2
  let drag_tou := drag_coeff_wR2 * speed2
  let tou := frictional_tou + drag_tou
  match thermalLoop tou speed2 fuel Ta with
  | none => none
  | some (Pc, Pe) =>
    let P_out := tou * speed / R_Out
    let Pw := speed2 * windage_losses_coeff_wR2
    let P_acc := (Mass * acceleration + slope_coeff * sind slope) * speed
    let P_net := P_out + Pw + Pc + Pe + P_acc
    some (clip0 P_net, P_out)

/-- calculate_dt from car.py for one array element. -/
def calculate_dt (start_speed stop_speed dx : ℚ) : ℚ :=
  2 * dx / (start_speed + stop_speed + EPSILON)

/-! ### Elementwise array plumbing (numpy broadcasting over equal-length
arrays; a length mismatch, which numpy rejects, yields the empty suffix
being dropped here and is excluded by explicit length hypotheses in the
theorems). -/

def zip3With (f : ℚ → ℚ → ℚ → ℚ) : List ℚ → List ℚ → List ℚ → List ℚ
  | a :: as, b :: bs, c :: cs => f a b c :: zip3With f as bs cs
  | _, _, _ => []

/-- Inclusive prefix sums (`np.cumsum`) with an explicit accumulator. -/
def cumsumFrom (acc : ℚ) : List ℚ → List ℚ
  | [] => []
  | x :: xs => (acc + x) :: cumsumFrom (acc + x) xs

def cumsum (xs : List ℚ) : List ℚ := cumsumFrom 0 xs

/-- `np.min` of a nonempty array (0 on the empty array, which numpy rejects
and the theorems exclude). -/
def listMin : List ℚ → ℚ
  | [] => 0
  | [x] => x
  | x :: y :: ys => min x (listMin (y :: ys))

/-- `np.max` of a nonempty array (0 on the empty array, which numpy rejects
and the theorems exclude). -/
def listMax : List ℚ → ℚ
  | [] => 0
  | [x] => x
  | x :: y :: ys => max x (listMax (y :: ys))

/-- calculate_power applied elementwise to equal-length arrays, as the numpy
source does in one vectorized call; `none` on a length mismatch or if the
thermal loop of some element does not exit within `fuel`. -/
def calculate_power_vec (sind : ℚ → ℚ) (fuel : ℕ) :
    List ℚ → List ℚ → List ℚ → Option (List (ℚ × ℚ))
  | [], [], [] => some []
  | s :: ss, a :: as, g :: gs =>
    match calculate_power sind fuel s a g, calculate_power_vec sind fuel ss as gs with
    | some p, some ps => some (p :: ps)
    | _, _ => none
  | _, _, _ => none

/-! ### solar.py -/

def DT : ℚ := RaceEndTime - RaceStartTime

def power_coeff : ℚ := PanelArea * PanelEfficiency

/-- Python's float `%` for a positive modulus. -/
def pymod (a b : ℚ) : ℚ := a - b * ⌊a / b⌋

/-- The Gaussian irradiance fit of solar.py; `qexp` abstracts `np.exp`. -/
def calc_solar_irradiance (qexp : ℚ → ℚ) (time : ℚ) : ℚ :=
  1073.099 * qexp (-0.5 * ((time - 51908.735) / 11484.950) ^ 2)

/-- calculate_incident_solarpower from solar.py for one array element. -/
def calculate_incident_solarpower (qexp : ℚ → ℚ) (globaltime latitude longitude : ℚ) : ℚ :=
  let gt := pymod globaltime DT
  calc_solar_irradiance qexp (RaceStartTime + gt) * power_coeff

/-! ### constraints.py -/

def SafeBatteryLevel : ℚ := BatteryCapacity * DeepDischargeCap

def MaxPower : ℚ := MaxCurrent * BusVoltage

def get_bounds (N : ℕ) : List (ℚ × ℚ) :=
  [(0, 0)] ++ List.replicate (N - 2) (0.01, MaxVelocity) ++ [(0, 0)]

/-- objective from constraints.py: total trip time, the sum of per-segment
`dt` over `v_prof[:-1]`, `v_prof[1:]` and the segment distances. -/
def objective (velocity_profile segment_array : List ℚ) : ℚ :=
  (zip3With calculate_dt velocity_profile.dropLast velocity_profile.tail
    segment_array).sum

/-- The local `start_speeds` of battery_acc_constraint_func: `v_prof[:-1]`. -/
def start_speeds (v_prof : List ℚ) : List ℚ := v_prof.dropLast

/-- The local `stop_speeds` of battery_acc_constraint_func: `v_prof[1:]`. -/
def stop_speeds (v_prof : List ℚ) : List ℚ := v_prof.tail

/-- The local `avg_speed` array: `(start_speeds + stop_speeds) / 2`. -/
def avg_speeds (v_prof : List ℚ) : List ℚ :=
  List.zipWith (fun a b => (a + b) / 2) (start_speeds v_prof) (stop_speeds v_prof)

/-- The local `dt` array: `calculate_dt(start_speeds, stop_speeds, segment_array)`. -/
def seg_dts (v_prof segment_array : List ℚ) : List ℚ :=
  zip3With calculate_dt (start_speeds v_prof) (stop_speeds v_prof) segment_array

/-- The local `acceleration` array: `(stop_speeds - start_speeds) / dt`. -/
def seg_accels (v_prof segment_array : List ℚ) : List ℚ :=
  zip3With (fun sta sto t => (sto - sta) / t) (start_speeds v_prof)
    (stop_speeds v_prof) (seg_dts v_prof segment_array)

/-- The vectorized `P, PO = calculate_power(avg_speed, acceleration, slope_array)`
call of battery_acc_constraint_func (and of extract_profiles). -/
def powers (sind : ℚ → ℚ) (fuel : ℕ) (v_prof segment_array slope_array : List ℚ) :
    Option (List (ℚ × ℚ)) :=
  calculate_power_vec sind fuel (avg_speeds v_prof) (seg_accels v_prof segment_array)
    slope_array

/-- The local `SolP` array:
`calculate_incident_solarpower(dt.cumsum(), latitude_array, longitude_array)`. -/
def solar_powers (qexp : ℚ → ℚ)
    (v_prof segment_array latitude_array longitude_array : List ℚ) : List ℚ :=
  zip3With (calculate_incident_solarpower qexp) (cumsum (seg_dts v_prof segment_array))
    latitude_array longitude_array

/-- The per-segment integrand `(P - SolP) * dt` whose cumulative sum
battery_acc_constraint_func divides by 3600. -/
def energy_increments (sind qexp : ℚ → ℚ) (fuel : ℕ)
    (v_prof segment_array slope_array latitude_array longitude_array : List ℚ) :
    Option (List ℚ) :=
  match powers sind fuel v_prof segment_array slope_array with
  | none => none
  | some PPO =>
    some (zip3With (fun p s t => (p - s) * t) (PPO.map Prod.fst)
      (solar_powers qexp v_prof segment_array latitude_array longitude_array)
      (seg_dts v_prof segment_array))

/-- The local `battery_profile` array of battery_acc_constraint_func, with the
module constants `InitialBatteryCapacity` and `SafeBatteryLevel` exposed as the
parameters `initCap` and `safeLvl`:
`initCap - ((P - SolP) * dt).cumsum() / 3600 - safeLvl`. -/
def battery_profileG (sind qexp : ℚ → ℚ) (fuel : ℕ) (initCap safeLvl : ℚ)
    (v_prof segment_array slope_array latitude_array longitude_array : List ℚ) :
    Option (List ℚ) :=
  match energy_increments sind qexp fuel v_prof segment_array slope_array
      latitude_array longitude_array with
  | none => none
  | some incs =>
    let energy_consumption := (cumsum incs).map (fun e => e / 3600)
    some (energy_consumption.map (fun e => initCap - e - safeLvl))

/-- The array whose `np.max` is the second returned component of
battery_acc_constraint_func: `PO.clip(0) / (Mass * avg_speed) - acceleration`. -/
def acc_margins (sind : ℚ → ℚ) (fuel : ℕ)
    (v_prof segment_array slope_array : List ℚ) : Option (List ℚ) :=
  match powers sind fuel v_prof segment_array slope_array with
  | none => none
  | some PPO =>
    some (zip3With (fun po sp a => clip0 po / (Mass * sp) - a) (PPO.map Prod.snd)
      (avg_speeds v_prof) (seg_accels v_prof segment_array))

/-- battery_acc_constraint_func from constraints.py, with the module constants
`InitialBatteryCapacity` and `SafeBatteryLevel` exposed as parameters: returns
`(np.min(battery_profile), np.max(PO.clip(0) / (Mass * avg_speed) - acceleration))`. -/
def battery_acc_constraint_funcG (sind qexp : ℚ → ℚ) (fuel : ℕ) (initCap safeLvl : ℚ)
    (v_prof segment_array slope_array latitude_array longitude_array : List ℚ) :
    Option (ℚ × ℚ) :=
  match battery_profileG sind qexp fuel initCap safeLvl v_prof segment_array
      slope_array latitude_array longitude_array,
    acc_margins sind fuel v_prof segment_array slope_array with
  | some bp, some am => some (listMin bp, listMax am)
  | _, _ => none

/-- battery_acc_constraint_func at the repository's configured constants. -/
def battery_acc_constraint_func (sind qexp : ℚ → ℚ) (fuel : ℕ)
    (v_prof segment_array slope_array latitude_array longitude_array : List ℚ) :
    Option (ℚ × ℚ) :=
  battery_acc_constraint_funcG sind qexp fuel InitialBatteryCapacity SafeBatteryLevel
    v_prof segment_array slope_array latitude_array longitude_array

/-- The `battery_profile` local of battery_acc_constraint_func at the
repository's configured constants (the cumulative battery trajectory the
constraint function minimizes over). -/
def battery_profile (sind qexp : ℚ → ℚ) (fuel : ℕ)
    (v_prof segment_array slope_array latitude_array longitude_array : List ℚ) :
    Option (List ℚ) :=
  battery_profileG sind qexp fuel InitialBatteryCapacity SafeBatteryLevel v_prof
    segment_array slope_array latitude_array longitude_array

/-! ### profiles.py -/

/-- The list of arrays extract_profiles returns.  The source marks the first
entry of the acceleration and energy arrays with `np.nan`; the marker is
`none` here, actual numbers are `some`. -/
structure Profiles where
  distances : List ℚ
  velocity : List ℚ
  acceleration : List (Option ℚ)
  battery : List ℚ
  energy_consumption : List (Option ℚ)
  energy_gain : List (Option ℚ)
  times : List ℚ

def emptyProfiles : Profiles := ⟨[], [], [], [], [], [], []⟩

/-- extract_profiles from profiles.py. -/
def extract_profiles (sind qexp : ℚ → ℚ) (fuel : ℕ)
    (velocity_profile segment_array slope_array lattitude_array longitude_array :
      List ℚ) : Option Profiles :=
  match powers sind fuel velocity_profile segment_array slope_array with
  | none => none
  | some PPO =>
    let dt := seg_dts velocity_profile segment_array
    let SolP := solar_powers qexp velocity_profile segment_array lattitude_array
      longitude_array
    let energy_consumption := List.zipWith (fun p t => p * t / 3600) (PPO.map Prod.fst) dt
    let energy_gain := List.zipWith (fun s t => s * t / 3600) SolP dt
    let net_energy_profile := List.zipWith (fun a b => a - b)
      (cumsum energy_consumption) (cumsum energy_gain)
    let battery_profile := net_energy_profile.map
      (fun e => InitialBatteryCapacity - e)
    let battery_profile2 := InitialBatteryCapacity :: battery_profile
    some
      { distances := 0 :: cumsum segment_array
        velocity := velocity_profile
        acceleration := none :: (seg_accels velocity_profile segment_array).map some
        battery := battery_profile2.map (fun b => b * 100 / BatteryCapacity)
        energy_consumption := none :: energy_consumption.map some
        energy_gain := none :: energy_gain.map some
        times := 0 :: cumsum dt }

/-! ### Indexed per-segment views (used to state the per-segment claims;
`node v j` is the j-th velocity node, read with numpy's error-free default 0
off the end, which the length hypotheses of the theorems exclude). -/

def node (v : List ℚ) (j : ℕ) : ℚ := v.getD j 0

def seg_avg (v : List ℚ) (j : ℕ) : ℚ := (node v j + node v (j + 1)) / 2

def seg_dt (v seg : List ℚ) (j : ℕ) : ℚ :=
  calculate_dt (node v j) (node v (j + 1)) (seg.getD j 0)

def seg_accel (v seg : List ℚ) (j : ℕ) : ℚ :=
  (node v (j + 1) - node v j) / seg_dt v seg j

/-- The mechanical output power `P_out = tou * speed / R_Out` of
calculate_power, evaluated at the j-th average segment speed; the second
component of `calculate_power` always equals this (see
`calculate_power_snd_eq`). -/
def seg_P_out (v : List ℚ) (j : ℕ) : ℚ :=
  (frictional_tou + drag_coeff_wR2 * seg_avg v j ^ 2) * seg_avg v j / R_Out

/-- Battery trajectory exactly as claim C2 words it:
`InitialBatteryCapacity − cumsum((net_power − solar_power)·dt)/3600`, net power
from `calculate_power` on per-segment average speed, acceleration and slope,
solar power from `calculate_incident_solarpower` at cumulative elapsed time. -/
def spec_battery_trajectory (sind qexp : ℚ → ℚ) (fuel : ℕ)
    (v_prof segment_array slope_array latitude_array longitude_array : List ℚ) :
    Option (List ℚ) :=
  match energy_increments sind qexp fuel v_prof segment_array slope_array
      latitude_array longitude_array with
  | none => none
  | some incs =>
    some ((cumsum incs).map (fun e => InitialBatteryCapacity - e / 3600))

/-- A velocity profile lies within a bounds list (as scipy enforces the output
of `get_bounds`): equal length, and each node within its closed interval. -/
def within_bounds (v : List ℚ) (bs : List (ℚ × ℚ)) : Prop :=
  v.length = bs.length ∧
    ∀ j, j < v.length → (bs.getD j (0, 0)).1 ≤ v.getD j 0 ∧
      v.getD j 0 ≤ (bs.getD j (0, 0)).2

end Agnirath

namespace Agnirath

/-! ## Plumbing lemmas -/

theorem zip3With_length (f : ℚ → ℚ → ℚ → ℚ) :
    ∀ as bs cs : List ℚ,
      (zip3With f as bs cs).length = min as.length (min bs.length cs.length) := by
  intro as
  induction as with
  | nil => intro bs cs; cases bs <;> cases cs <;> simp [zip3With]
  | cons a as ih =>
    intro bs cs
    cases bs with
    | nil => simp [zip3With]
    | cons b bs =>
      cases cs with
      | nil => simp [zip3With]
      | cons c cs =>
        simp only [zip3With, List.length_cons, ih, Nat.succ_min_succ]

theorem zip3With_getD (f : ℚ → ℚ → ℚ → ℚ) :
    ∀ (as bs cs : List ℚ) (j : ℕ), j < (zip3With f as bs cs).length →
      (zip3With f as bs cs).getD j 0 = f (as.getD j 0) (bs.getD j 0) (cs.getD j 0) := by
  intro as
  induction as with
  | nil => intro bs cs j h; cases bs <;> cases cs <;> simp [zip3With] at h
  | cons a as ih =>
    intro bs cs j h
    cases bs with
    | nil => simp [zip3With] at h
    | cons b bs =>
      cases cs with
      | nil => simp [zip3With] at h
      | cons c cs =>
        cases j with
        | zero => rfl
        | succ j =>
          simp only [zip3With, List.length_cons, Nat.succ_lt_succ_iff] at h
          show (zip3With f (a :: as) (b :: bs) (c :: cs)).getD (j + 1) 0 = _
          simp only [zip3With, List.getD_cons_succ]
          exact ih bs cs j h

theorem zipWith_getD (f : ℚ → ℚ → ℚ) :
    ∀ (as bs : List ℚ) (j : ℕ), j < (List.zipWith f as bs).length →
      (List.zipWith f as bs).getD j 0 = f (as.getD j 0) (bs.getD j 0) := by
  intro as
  induction as with
  | nil => intro bs j h; cases bs <;> simp at h
  | cons a as ih =>
    intro bs j h
    cases bs with
    | nil => simp at h
    | cons b bs =>
      cases j with
      | zero => rfl
      | succ j =>
        simp only [List.zipWith_cons_cons, List.length_cons, Nat.succ_lt_succ_iff] at h
        simpa using ih bs j h

theorem map_getD (f : ℚ → ℚ) (l : List ℚ) (j : ℕ) (h : j < l.length) :
    (l.map f).getD j 0 = f (l.getD j 0) := by
  rw [List.getD_eq_getElem _ _ (by simpa using h), List.getElem_map,
    List.getD_eq_getElem _ _ h]

theorem mapFst_getD (l : List (ℚ × ℚ)) (j : ℕ) (h : j < l.length) :
    (l.map Prod.fst).getD j 0 = (l.getD j (0, 0)).1 := by
  rw [List.getD_eq_getElem _ _ (by simpa using h), List.getElem_map,
    List.getD_eq_getElem _ _ h]

theorem mapSnd_getD (l : List (ℚ × ℚ)) (j : ℕ) (h : j < l.length) :
    (l.map Prod.snd).getD j 0 = (l.getD j (0, 0)).2 := by
  rw [List.getD_eq_getElem _ _ (by simpa using h), List.getElem_map,
    List.getD_eq_getElem _ _ h]

theorem cumsumFrom_length : ∀ (l : List ℚ) (acc : ℚ), (cumsumFrom acc l).length = l.length := by
  intro l
  induction l with
  | nil => intro acc; rfl
  | cons x xs ih => intro acc; simp [cumsumFrom, ih]

theorem cumsum_length (l : List ℚ) : (cumsum l).length = l.length :=
  cumsumFrom_length l 0

theorem cumsumFrom_getD_zero (l : List ℚ) (acc : ℚ) (h : l ≠ []) :
    (cumsumFrom acc l).getD 0 0 = acc + l.getD 0 0 := by
  cases l with
  | nil => exact absurd rfl h
  | cons x xs => rfl

theorem cumsumFrom_getD_succ :
    ∀ (l : List ℚ) (acc : ℚ) (j : ℕ), j + 1 < l.length →
      (cumsumFrom acc l).getD (j + 1) 0 =
        (cumsumFrom acc l).getD j 0 + l.getD (j + 1) 0 := by
  intro l
  induction l with
  | nil => intro acc j h; simp at h
  | cons x xs ih =>
    intro acc j h
    cases j with
    | zero =>
      have hxs : xs ≠ [] := by
        intro he
        rw [he] at h
        simp at h
      show (cumsumFrom (acc + x) xs).getD 0 0 = (acc + x) + xs.getD 0 0
      exact cumsumFrom_getD_zero xs (acc + x) hxs
    | succ j =>
      have h' : j + 1 < xs.length := by simpa using h
      show (cumsumFrom (acc + x) xs).getD (j + 1) 0 =
        (cumsumFrom (acc + x) xs).getD j 0 + xs.getD (j + 1) 0
      exact ih (acc + x) j h'

theorem cumsumFrom_getLastD : ∀ (l : List ℚ) (acc : ℚ),
    (cumsumFrom acc l).getLastD acc = acc + l.sum := by
  intro l
  induction l with
  | nil => intro acc; simp [cumsumFrom]
  | cons x xs ih =>
    intro acc
    rw [cumsumFrom, List.getLastD_cons, ih (acc + x)]
    simp only [List.sum_cons]
    ring

theorem listMin_le_getD : ∀ (l : List ℚ) (j : ℕ), j < l.length → listMin l ≤ l.getD j 0 := by
  intro l
  induction l with
  | nil => intro j h; simp at h
  | cons x xs ih =>
    intro j hj
    cases xs with
    | nil =>
      cases j with
      | zero => exact le_refl x
      | succ j => simp at hj
    | cons y ys =>
      cases j with
      | zero => exact min_le_left _ _
      | succ j =>
        have h' : j < (y :: ys).length := by simpa using hj
        exact le_trans (min_le_right _ _) (ih j h')

theorem listMax_mem : ∀ (l : List ℚ), l ≠ [] → listMax l ∈ l := by
  intro l
  induction l with
  | nil => intro h; exact absurd rfl h
  | cons x xs ih =>
    intro _
    cases xs with
    | nil => simp [listMax]
    | cons y ys =>
      show max x (listMax (y :: ys)) ∈ x :: y :: ys
      rcases max_choice x (listMax (y :: ys)) with h | h
      · rw [h]; exact List.mem_cons_self x _
      · rw [h]; exact List.mem_cons_of_mem x (ih (by simp))

theorem listMin_map_sub (g : ℚ → ℚ) (c : ℚ) :
    ∀ l : List ℚ, l ≠ [] →
      listMin (l.map fun x => g x - c) = listMin (l.map g) - c := by
  intro l
  induction l with
  | nil => intro h; exact absurd rfl h
  | cons x xs ih =>
    intro _
    cases xs with
    | nil => rfl
    | cons y ys =>
      show min (g x - c) (listMin ((y :: ys).map fun z => g z - c)) =
        min (g x) (listMin ((y :: ys).map g)) - c
      rw [ih (by simp), min_sub_sub_right]

theorem clip0_nonneg (x : ℚ) : 0 ≤ clip0 x := by
  unfold clip0
  split
  · exact le_refl 0
  · linarith

end Agnirath

namespace Agnirath

theorem calculate_power_none_of_loop (sind : ℚ → ℚ) (fuel : ℕ) (s a g : ℚ)
    (htl : thermalLoop (frictional_tou + drag_coeff_wR2 * s ^ 2) (s ^ 2) fuel Ta = none) :
    calculate_power sind fuel s a g = none := by
  simp only [calculate_power]
  rw [htl]

theorem calculate_power_some_of_loop (sind : ℚ → ℚ) (fuel : ℕ) (s a g Pc Pe : ℚ)
    (htl : thermalLoop (frictional_tou + drag_coeff_wR2 * s ^ 2) (s ^ 2) fuel Ta =
      some (Pc, Pe)) :
    calculate_power sind fuel s a g = some
      (clip0 ((frictional_tou + drag_coeff_wR2 * s ^ 2) * s / R_Out +
          s ^ 2 * windage_losses_coeff_wR2 + Pc + Pe +
          (Mass * a + slope_coeff * sind g) * s),
        (frictional_tou + drag_coeff_wR2 * s ^ 2) * s / R_Out) := by
  simp only [calculate_power]
  rw [htl]

theorem calculate_power_fst_nonneg (sind : ℚ → ℚ) (fuel : ℕ) (s a g : ℚ) (p : ℚ × ℚ)
    (h : calculate_power sind fuel s a g = some p) : 0 ≤ p.1 := by
  cases htl : thermalLoop (frictional_tou + drag_coeff_wR2 * s ^ 2) (s ^ 2) fuel Ta with
  | none =>
    rw [calculate_power_none_of_loop sind fuel s a g htl] at h
    exact absurd h (by simp)
  | some pe =>
    obtain ⟨Pc, Pe⟩ := pe
    rw [calculate_power_some_of_loop sind fuel s a g Pc Pe htl] at h
    injection h with h
    rw [← h]
    exact clip0_nonneg _

theorem calculate_power_snd_eq (sind : ℚ → ℚ) (fuel : ℕ) (s a g : ℚ) (p : ℚ × ℚ)
    (h : calculate_power sind fuel s a g = some p) :
    p.2 = (frictional_tou + drag_coeff_wR2 * s ^ 2) * s / R_Out := by
  cases htl : thermalLoop (frictional_tou + drag_coeff_wR2 * s ^ 2) (s ^ 2) fuel Ta with
  | none =>
    rw [calculate_power_none_of_loop sind fuel s a g htl] at h
    exact absurd h (by simp)
  | some pe =>
    obtain ⟨Pc, Pe⟩ := pe
    rw [calculate_power_some_of_loop sind fuel s a g Pc Pe htl] at h
    injection h with h
    rw [← h]

theorem calculate_power_vec_some (sind : ℚ → ℚ) (fuel : ℕ) :
    ∀ (ss as gs : List ℚ) (PPO : List (ℚ × ℚ)),
      calculate_power_vec sind fuel ss as gs = some PPO →
      PPO.length = ss.length ∧
      ∀ j, j < PPO.length →
        calculate_power sind fuel (ss.getD j 0) (as.getD j 0) (gs.getD j 0) =
          some (PPO.getD j (0, 0)) := by
  intro ss
  induction ss with
  | nil =>
    intro as gs PPO h
    cases as with
    | nil =>
      cases gs with
      | nil =>
        have : PPO = [] := by
          have h' : some [] = some PPO := h
          injection h' with h'
          exact h'.symm
        subst this
        exact ⟨rfl, by intro j hj; simp at hj⟩
      | cons g gs => exact absurd h (by simp [calculate_power_vec])
    | cons a as => exact absurd h (by simp [calculate_power_vec])
  | cons s ss ih =>
    intro as gs PPO h
    cases as with
    | nil => exact absurd h (by simp [calculate_power_vec])
    | cons a as =>
      cases gs with
      | nil => exact absurd h (by simp [calculate_power_vec])
      | cons g gs =>
        unfold calculate_power_vec at h
        cases hp : calculate_power sind fuel s a g with
        | none => rw [hp] at h; exact absurd h (by simp)
        | some p =>
          rw [hp] at h
          cases hv : calculate_power_vec sind fuel ss as gs with
          | none =>
            rw [hv] at h
            simp at h
          | some ps =>
            rw [hv] at h
            have hP : p :: ps = PPO := by
              have h' : some (p :: ps) = some PPO := h
              injection h' with h'
            obtain ⟨ihlen, ihget⟩ := ih as gs ps hv
            subst hP
            refine ⟨by simp [ihlen], ?_⟩
            intro j hj
            cases j with
            | zero => simpa using hp
            | succ j =>
              have hj' : j < ps.length := by simpa using hj
              simpa using ihget j hj'

theorem energy_increments_eq (sind qexp : ℚ → ℚ) (fuel : ℕ)
    (v seg slope lat lon : List ℚ) (PPO : List (ℚ × ℚ))
    (h : powers sind fuel v seg slope = some PPO) :
    energy_increments sind qexp fuel v seg slope lat lon =
      some (zip3With (fun p s t => (p - s) * t) (PPO.map Prod.fst)
        (solar_powers qexp v seg lat lon) (seg_dts v seg)) := by
  unfold energy_increments
  rw [h]

theorem battery_profileG_eq (sind qexp : ℚ → ℚ) (fuel : ℕ) (initCap safeLvl : ℚ)
    (v seg slope lat lon : List ℚ) (incs : List ℚ)
    (h : energy_increments sind qexp fuel v seg slope lat lon = some incs) :
    battery_profileG sind qexp fuel initCap safeLvl v seg slope lat lon =
      some (((cumsum incs).map (fun e => e / 3600)).map
        (fun e => initCap - e - safeLvl)) := by
  unfold battery_profileG
  rw [h]

theorem acc_margins_eq (sind : ℚ → ℚ) (fuel : ℕ)
    (v seg slope : List ℚ) (PPO : List (ℚ × ℚ))
    (h : powers sind fuel v seg slope = some PPO) :
    acc_margins sind fuel v seg slope =
      some (zip3With (fun po sp a => clip0 po / (Mass * sp) - a) (PPO.map Prod.snd)
        (avg_speeds v) (seg_accels v seg)) := by
  unfold acc_margins
  rw [h]

theorem spec_battery_trajectory_eq (sind qexp : ℚ → ℚ) (fuel : ℕ)
    (v seg slope lat lon : List ℚ) (incs : List ℚ)
    (h : energy_increments sind qexp fuel v seg slope lat lon = some incs) :
    spec_battery_trajectory sind qexp fuel v seg slope lat lon =
      some ((cumsum incs).map (fun e => InitialBatteryCapacity - e / 3600)) := by
  unfold spec_battery_trajectory
  rw [h]

theorem constraint_funcG_some (sind qexp : ℚ → ℚ) (fuel : ℕ) (initCap safeLvl : ℚ)
    (v seg slope lat lon : List ℚ) (bp am : List ℚ)
    (hbp : battery_profileG sind qexp fuel initCap safeLvl v seg slope lat lon = some bp)
    (ham : acc_margins sind fuel v seg slope = some am) :
    battery_acc_constraint_funcG sind qexp fuel initCap safeLvl v seg slope lat lon =
      some (listMin bp, listMax am) := by
  unfold battery_acc_constraint_funcG
  rw [hbp, ham]

theorem powers_of_funcG_isSome (sind qexp : ℚ → ℚ) (fuel : ℕ) (initCap safeLvl : ℚ)
    (v seg slope lat lon : List ℚ)
    (h : (battery_acc_constraint_funcG sind qexp fuel initCap safeLvl v seg slope
      lat lon).isSome = true) :
    ∃ PPO, powers sind fuel v seg slope = some PPO := by
  cases hP : powers sind fuel v seg slope with
  | some PPO => exact ⟨PPO, rfl⟩
  | none =>
    have hbp : battery_profileG sind qexp fuel initCap safeLvl v seg slope lat lon
        = none := by
      unfold battery_profileG energy_increments
      rw [hP]
    have : battery_acc_constraint_funcG sind qexp fuel initCap safeLvl v seg slope
        lat lon = none := by
      unfold battery_acc_constraint_funcG
      rw [hbp]
    rw [this] at h
    exact absurd h (by simp)

theorem powers_of_extract_isSome (sind qexp : ℚ → ℚ) (fuel : ℕ)
    (v seg slope lat lon : List ℚ)
    (h : (extract_profiles sind qexp fuel v seg slope lat lon).isSome = true) :
    ∃ PPO, powers sind fuel v seg slope = some PPO := by
  cases hP : powers sind fuel v seg slope with
  | some PPO => exact ⟨PPO, rfl⟩
  | none =>
    have : extract_profiles sind qexp fuel v seg slope lat lon = none := by
      unfold extract_profiles
      rw [hP]
    rw [this] at h
    exact absurd h (by simp)

theorem extract_profiles_eq_times (sind qexp : ℚ → ℚ) (fuel : ℕ)
    (v seg slope lat lon : List ℚ) (PPO : List (ℚ × ℚ))
    (h : powers sind fuel v seg slope = some PPO) :
    ((extract_profiles sind qexp fuel v seg slope lat lon).getD emptyProfiles).times =
      0 :: cumsum (seg_dts v seg) := by
  unfold extract_profiles
  rw [h]
  rfl

end Agnirath

namespace Agnirath

theorem start_speeds_getD (v : List ℚ) (j : ℕ) (h : j + 1 < v.length) :
    (start_speeds v).getD j 0 = node v j := by
  have hd : j < v.dropLast.length := by
    rw [List.length_dropLast]
    omega
  have hv : j < v.length := by omega
  unfold start_speeds node
  rw [List.getD_eq_getElem _ _ hd, List.getElem_dropLast, List.getD_eq_getElem _ _ hv]

theorem stop_speeds_getD (v : List ℚ) (j : ℕ) (h : j + 1 < v.length) :
    (stop_speeds v).getD j 0 = node v (j + 1) := by
  have ht : j < v.tail.length := by
    rw [List.length_tail]
    omega
  unfold stop_speeds node
  rw [List.getD_eq_getElem _ _ ht, List.getElem_tail, List.getD_eq_getElem _ _ (by omega)]

theorem avg_speeds_length (v : List ℚ) : (avg_speeds v).length = v.length - 1 := by
  unfold avg_speeds start_speeds stop_speeds
  rw [List.length_zipWith, List.length_dropLast, List.length_tail]
  omega

theorem seg_dts_length (v seg : List ℚ) (hv : v.length = seg.length + 1) :
    (seg_dts v seg).length = seg.length := by
  unfold seg_dts start_speeds stop_speeds
  rw [zip3With_length, List.length_dropLast, List.length_tail, hv]
  omega

theorem seg_accels_length (v seg : List ℚ) (hv : v.length = seg.length + 1) :
    (seg_accels v seg).length = seg.length := by
  unfold seg_accels start_speeds stop_speeds
  rw [zip3With_length, List.length_dropLast, List.length_tail, hv,
    seg_dts_length v seg hv]
  omega

theorem avg_speeds_getD (v seg : List ℚ) (j : ℕ) (hv : v.length = seg.length + 1)
    (hj : j < seg.length) : (avg_speeds v).getD j 0 = seg_avg v j := by
  have hlen : j < (avg_speeds v).length := by rw [avg_speeds_length, hv]; omega
  have hj1 : j + 1 < v.length := by omega
  unfold avg_speeds
  rw [zipWith_getD _ _ _ _ hlen, start_speeds_getD v j hj1, stop_speeds_getD v j hj1]
  rfl

theorem seg_dts_getD (v seg : List ℚ) (j : ℕ) (hv : v.length = seg.length + 1)
    (hj : j < seg.length) : (seg_dts v seg).getD j 0 = seg_dt v seg j := by
  have hlen : j < (seg_dts v seg).length := by rw [seg_dts_length v seg hv]; omega
  have hj1 : j + 1 < v.length := by omega
  unfold seg_dts
  rw [zip3With_getD _ _ _ _ _ hlen, start_speeds_getD v j hj1, stop_speeds_getD v j hj1]
  rfl

theorem seg_accels_getD (v seg : List ℚ) (j : ℕ) (hv : v.length = seg.length + 1)
    (hj : j < seg.length) : (seg_accels v seg).getD j 0 = seg_accel v seg j := by
  have hlen : j < (seg_accels v seg).length := by rw [seg_accels_length v seg hv]; omega
  have hj1 : j + 1 < v.length := by omega
  unfold seg_accels
  rw [zip3With_getD _ _ _ _ _ hlen, start_speeds_getD v j hj1, stop_speeds_getD v j hj1,
    seg_dts_getD v seg j hv hj]
  rfl

end Agnirath

namespace Agnirath

/-- C6: the last entry of the cumulative-time array returned by
extract_profiles equals `objective (velocity_profile, segment_array)`: the
extractor's reported total trip time is exactly the optimizer's objective
value (both are the sum of the per-segment dt; over exact rationals the
equality is exact, hence within any floating-point tolerance). -/
theorem C6_theorem (sind qexp : ℚ → ℚ) (fuel : ℕ) (v seg slope lat lon : List ℚ)
    (h : (extract_profiles sind qexp fuel v seg slope lat lon).isSome = true) :
    ((extract_profiles sind qexp fuel v seg slope lat lon).getD
      emptyProfiles).times.getLastD 0 = objective v seg := by
  obtain ⟨PPO, hP⟩ := powers_of_extract_isSome sind qexp fuel v seg slope lat lon h
  rw [extract_profiles_eq_times sind qexp fuel v seg slope lat lon PPO hP,
    List.getLastD_cons, cumsum, cumsumFrom_getLastD (seg_dts v seg) 0, zero_add]
  rfl

/-- Witness for C6 at the concrete 2-segment route `[1, 1]` with velocity
profile `[0, 2, 0]`, flat slope. -/
theorem C6_witness :
    (extract_profiles (fun _ => 0) (fun _ => 0) 10 [0, 2, 0] [1, 1] [0, 0] [0, 0]
        [0, 0]).isSome = true ∧
      ((extract_profiles (fun _ => 0) (fun _ => 0) 10 [0, 2, 0] [1, 1] [0, 0] [0, 0]
          [0, 0]).getD emptyProfiles).times.getLastD 0 = objective [0, 2, 0] [1, 1] :=
  ⟨of_decide_eq_true (by with_unfolding_all rfl),
    C6_theorem (fun _ => 0) (fun _ => 0) 10 [0, 2, 0] [1, 1] [0, 0] [0, 0] [0, 0]
      (of_decide_eq_true (by with_unfolding_all rfl))⟩

/-- C7: every element of the net-power array (the first components) returned
by the vectorized calculate_power is nonnegative: the source clips negative
net power to zero and never returns energy to the battery from motion. -/
theorem C7_theorem (sind : ℚ → ℚ) (fuel : ℕ) (speeds accels slopes : List ℚ)
    (h : (calculate_power_vec sind fuel speeds accels slopes).isSome = true) :
    ∀ p ∈ (calculate_power_vec sind fuel speeds accels slopes).getD [], 0 ≤ p.1 := by
  cases hv : calculate_power_vec sind fuel speeds accels slopes with
  | none => rw [hv] at h; exact absurd h (by simp)
  | some PPO =>
    intro p hp
    simp only [Option.getD_some] at hp
    obtain ⟨hlen, hget⟩ := calculate_power_vec_some sind fuel speeds accels slopes PPO hv
    obtain ⟨j, hj, hpj⟩ := List.mem_iff_getElem.mp hp
    have hnn := calculate_power_fst_nonneg sind fuel _ _ _ _ (hget j hj)
    rw [List.getD_eq_getElem _ _ hj, hpj] at hnn
    exact hnn

/-- Witness for C7 at speed 1, acceleration 0, slope 0. -/
theorem C7_witness :
    (calculate_power_vec (fun _ => 0) 10 [1] [0] [0]).isSome = true ∧
      ∀ p ∈ (calculate_power_vec (fun _ => 0) 10 [1] [0] [0]).getD [], 0 ≤ p.1 :=
  ⟨of_decide_eq_true (by with_unfolding_all rfl),
    C7_theorem (fun _ => 0) 10 [1] [0] [0] (of_decide_eq_true (by with_unfolding_all rfl))⟩

/-- C8: calculate_dt returns exactly `2*dx/(start+stop+ε)` with `ε = 10⁻⁸`;
for nonnegative endpoint speeds the denominator is strictly positive (so no
division error arises even with both speeds zero), a zero-distance segment
contributes exactly zero time, and the result is strictly positive whenever
`dx > 0` and the speeds are nonnegative with at least one positive. -/
theorem C8_theorem (start_speed stop_speed dx : ℚ) :
    calculate_dt start_speed stop_speed dx =
        2 * dx / (start_speed + stop_speed + EPSILON) ∧
      (0 ≤ start_speed → 0 ≤ stop_speed →
        0 < start_speed + stop_speed + EPSILON) ∧
      (0 ≤ start_speed → 0 ≤ stop_speed → dx = 0 →
        calculate_dt start_speed stop_speed dx = 0) ∧
      (0 < dx → 0 ≤ start_speed → 0 ≤ stop_speed →
        (0 < start_speed ∨ 0 < stop_speed) →
        0 < calculate_dt start_speed stop_speed dx) := by
  have hE : (0 : ℚ) < EPSILON := by norm_num [EPSILON]
  refine ⟨rfl, ?_, ?_, ?_⟩
  · intro h1 h2
    linarith
  · intro h1 h2 h3
    rw [h3]
    simp [calculate_dt]
  · intro hdx h1 h2 _
    have hden : 0 < start_speed + stop_speed + EPSILON := by linarith
    exact div_pos (by linarith) hden

/-- C9: noninterference of the location inputs: calculate_incident_solarpower
returns the same power for any two latitude/longitude pairs at the same
elapsed time — the output depends on the time argument only. -/
theorem C9_theorem (qexp : ℚ → ℚ) (globaltime lat1 lon1 lat2 lon2 : ℚ) :
    calculate_incident_solarpower qexp globaltime lat1 lon1 =
      calculate_incident_solarpower qexp globaltime lat2 lon2 := rfl

end Agnirath

namespace Agnirath

theorem get_bounds_fst_nonneg (N j : ℕ) : 0 ≤ ((get_bounds N).getD j (0, 0)).1 := by
  by_cases hj : j < (get_bounds N).length
  · rw [List.getD_eq_getElem _ _ hj]
    have hm := List.getElem_mem hj
    set x := (get_bounds N)[j] with hx
    unfold get_bounds at hm
    rcases List.mem_append.mp hm with h1 | h2
    · rcases List.mem_append.mp h1 with h3 | h4
      · rw [List.mem_singleton.mp h3]
      · rw [List.eq_of_mem_replicate h4]
        norm_num
    · rw [List.mem_singleton.mp h2]
  · rw [List.getD_eq_default _ _ (le_of_not_lt hj)]

theorem get_bounds_length (N : ℕ) : (get_bounds N).length = N - 2 + 2 := by
  unfold get_bounds
  simp only [List.length_append, List.length_replicate, List.length_singleton]
  omega

theorem get_bounds_fst_interior (N j : ℕ) (h1 : 1 ≤ j) (h2 : j ≤ N - 2) :
    ((get_bounds N).getD j (0, 0)).1 = 0.01 := by
  obtain ⟨k, rfl⟩ : ∃ k, j = k + 1 := ⟨j - 1, by omega⟩
  have hk : k < N - 2 := by omega
  have hcons : get_bounds N =
      (0, 0) :: (List.replicate (N - 2) ((0.01 : ℚ), MaxVelocity) ++ [(0, 0)]) := by
    unfold get_bounds
    simp
  rw [hcons, List.getD_cons_succ]
  have hlen : k < (List.replicate (N - 2) ((0.01 : ℚ), MaxVelocity) ++ [(0, 0)]).length := by
    simp [List.length_append, List.length_replicate]
    omega
  rw [List.getD_eq_getElem _ _ hlen, List.getElem_append,
    dif_pos (by simpa [List.length_replicate] using hk)]
  simp

/-- C10: the acceleration-margin divisor `Mass * avg_speed` in
battery_acc_constraint_func has no ε-guard; for nonnegative node velocities
it is strictly positive on a segment iff its two adjacent profile nodes are
not both zero; under the bounds of `get_bounds N` (endpoints pinned to 0,
interior nodes at least 0.01) it is positive on every segment of a route
with at least two segments (N ≥ 3 nodes); and for a single-segment route
(N = 2, both nodes bounded to 0) the divisor is exactly zero, so the
division in the margin is a division by zero. -/
theorem C10_theorem :
    (∀ v : List ℚ, (∀ j, j < v.length → 0 ≤ node v j) →
      ∀ j, j + 1 < v.length →
        (0 < Mass * seg_avg v j ↔ ¬(node v j = 0 ∧ node v (j + 1) = 0))) ∧
    (∀ N : ℕ, 3 ≤ N → ∀ v : List ℚ, within_bounds v (get_bounds N) →
      ∀ j, j + 1 < v.length → 0 < Mass * seg_avg v j) ∧
    (∀ v : List ℚ, within_bounds v (get_bounds 2) → Mass * seg_avg v 0 = 0) := by
  have hM : (0 : ℚ) < Mass := by norm_num [Mass]
  refine ⟨?_, ?_, ?_⟩
  · intro v hnn j hj
    have ha := hnn j (by omega)
    have hb := hnn (j + 1) hj
    constructor
    · intro hpos hboth
      obtain ⟨h0, h1⟩ := hboth
      rw [show seg_avg v j = (node v j + node v (j + 1)) / 2 from rfl, h0, h1] at hpos
      norm_num at hpos
    · intro hne
      have hsum : 0 < node v j + node v (j + 1) := by
        rcases not_and_or.mp hne with h | h
        · have := lt_of_le_of_ne ha (Ne.symm h)
          linarith
        · have := lt_of_le_of_ne hb (Ne.symm h)
          linarith
      have : 0 < seg_avg v j := by
        rw [show seg_avg v j = (node v j + node v (j + 1)) / 2 from rfl]
        linarith
      exact mul_pos hM this
  · intro N hN v hwb j hj
    obtain ⟨hlen, hb⟩ := hwb
    have hNlen : v.length = N := by
      rw [hlen, get_bounds_length]
      omega
    have hnode : ∀ k, k < v.length → 0 ≤ node v k := by
      intro k hk
      exact le_trans (get_bounds_fst_nonneg N k) (hb k hk).1
    have hint : ∃ k, (k = j ∨ k = j + 1) ∧ 1 ≤ k ∧ k ≤ N - 2 := by
      rcases Nat.eq_zero_or_pos j with h0 | h1
      · exact ⟨j + 1, Or.inr rfl, by omega, by omega⟩
      · exact ⟨j, Or.inl rfl, by omega, by omega⟩
    obtain ⟨k, hk, hk1, hk2⟩ := hint
    have hklt : k < v.length := by
      rcases hk with rfl | rfl
      · omega
      · exact hj
    have hkv : 0.01 ≤ node v k := by
      have := (hb k hklt).1
      rwa [get_bounds_fst_interior N k hk1 hk2] at this
    have hsum : 0 < node v j + node v (j + 1) := by
      have h1 := hnode j (by omega)
      have h2 := hnode (j + 1) hj
      rcases hk with rfl | rfl
      · linarith
      · linarith
    have : 0 < seg_avg v j := by
      rw [show seg_avg v j = (node v j + node v (j + 1)) / 2 from rfl]
      linarith
    exact mul_pos hM this
  · intro v hwb
    obtain ⟨hlen, hb⟩ := hwb
    have hg2 : get_bounds 2 = [(0, 0), (0, 0)] := by
      unfold get_bounds
      simp
    have hvl : v.length = 2 := by
      rw [hlen, hg2]
      rfl
    have h0 : node v 0 = 0 := by
      have := hb 0 (by omega)
      rw [hg2] at this
      have hle := this.2
      have hge := this.1
      simp only [List.getD_cons_zero] at hle hge
      exact le_antisymm hle hge
    have h1 : node v 1 = 0 := by
      have := hb 1 (by omega)
      rw [hg2] at this
      have hle := this.2
      have hge := this.1
      simp only [List.getD_cons_succ, List.getD_cons_zero] at hle hge
      exact le_antisymm hle hge
    rw [show seg_avg v 0 = (node v 0 + node v 1) / 2 from rfl, h0, h1]
    norm_num

end Agnirath

namespace Agnirath

theorem energy_increments_list_length (sind qexp : ℚ → ℚ) (fuel : ℕ)
    (v seg slope lat lon : List ℚ) (PPO : List (ℚ × ℚ))
    (hP : powers sind fuel v seg slope = some PPO)
    (hv : v.length = seg.length + 1)
    (hlat : lat.length = seg.length) (hlon : lon.length = seg.length) :
    (zip3With (fun p s t => (p - s) * t) (PPO.map Prod.fst)
      (solar_powers qexp v seg lat lon) (seg_dts v seg)).length = seg.length := by
  obtain ⟨hlen, _⟩ := calculate_power_vec_some sind fuel (avg_speeds v)
    (seg_accels v seg) slope PPO hP
  unfold solar_powers
  rw [zip3With_length, List.length_map, hlen, avg_speeds_length, hv, zip3With_length,
    cumsum_length, seg_dts_length v seg hv, hlat, hlon]
  omega

/-- C2: the first component returned by battery_acc_constraint_func equals the
minimum over segments of the cumulative battery trajectory minus
SafeBatteryLevel, the trajectory being
`InitialBatteryCapacity − cumsum((net_power − solar_power)·dt)/3600` with net
power from calculate_power on per-segment average speed, acceleration and
slope, and solar power from calculate_incident_solarpower at cumulative
elapsed time (`spec_battery_trajectory`, worded from the claim). -/
theorem C2_theorem (sind qexp : ℚ → ℚ) (fuel : ℕ) (v seg slope lat lon : List ℚ)
    (hseg : seg ≠ []) (hv : v.length = seg.length + 1)
    (hlat : lat.length = seg.length) (hlon : lon.length = seg.length)
    (h : (battery_acc_constraint_func sind qexp fuel v seg slope lat lon).isSome
      = true) :
    ((battery_acc_constraint_func sind qexp fuel v seg slope lat lon).getD (0, 0)).1 =
      listMin ((spec_battery_trajectory sind qexp fuel v seg slope lat lon).getD []) -
        SafeBatteryLevel := by
  obtain ⟨PPO, hP⟩ := powers_of_funcG_isSome sind qexp fuel InitialBatteryCapacity
    SafeBatteryLevel v seg slope lat lon h
  have hinc := energy_increments_eq sind qexp fuel v seg slope lat lon PPO hP
  have hbp := battery_profileG_eq sind qexp fuel InitialBatteryCapacity SafeBatteryLevel
    v seg slope lat lon _ hinc
  have ham := acc_margins_eq sind fuel v seg slope PPO hP
  have hfc := constraint_funcG_some sind qexp fuel InitialBatteryCapacity
    SafeBatteryLevel v seg slope lat lon _ _ hbp ham
  show ((battery_acc_constraint_funcG sind qexp fuel InitialBatteryCapacity
    SafeBatteryLevel v seg slope lat lon).getD (0, 0)).1 = _
  rw [hfc, spec_battery_trajectory_eq sind qexp fuel v seg slope lat lon _ hinc]
  simp only [Option.getD_some]
  rw [List.map_map]
  have hne : cumsum (zip3With (fun p s t => (p - s) * t) (PPO.map Prod.fst)
      (solar_powers qexp v seg lat lon) (seg_dts v seg)) ≠ [] := by
    have hpos : 0 < seg.length := List.length_pos.mpr hseg
    apply List.length_pos.mp
    rw [cumsum_length,
      energy_increments_list_length sind qexp fuel v seg slope lat lon PPO hP hv hlat
        hlon]
    exact hpos
  exact listMin_map_sub (fun e => InitialBatteryCapacity - e / 3600) SafeBatteryLevel
    (cumsum (zip3With (fun p s t => (p - s) * t) (PPO.map Prod.fst)
      (solar_powers qexp v seg lat lon) (seg_dts v seg))) hne

/-- Witness for C2 at the two-segment route `[1, 1]`, profile `[0, 2, 0]`. -/
theorem C2_witness :
    ((battery_acc_constraint_func (fun _ => 0) (fun _ => 0) 10 [0, 2, 0] [1, 1] [0, 0]
        [0, 0] [0, 0]).getD (0, 0)).1 =
      listMin ((spec_battery_trajectory (fun _ => 0) (fun _ => 0) 10 [0, 2, 0] [1, 1]
        [0, 0] [0, 0] [0, 0]).getD []) - SafeBatteryLevel :=
  C2_theorem (fun _ => 0) (fun _ => 0) 10 [0, 2, 0] [1, 1] [0, 0] [0, 0] [0, 0]
    (by decide) rfl rfl rfl (of_decide_eq_true (by with_unfolding_all rfl))

end Agnirath

namespace Agnirath

/-- C1 (amended): a nonnegative second component returned by
battery_acc_constraint_func certifies acceleration feasibility on at least
one segment — it is `np.max` of the per-segment margins, so `max ≥ 0` only
guarantees some segment's commanded acceleration is within the deliverable
`PO.clip(0)/(Mass·avg_speed)`; route-wide feasibility would require the
minimum (see `C1_counterexample`). -/
theorem C1_theorem (sind qexp : ℚ → ℚ) (fuel : ℕ) (v seg slope lat lon : List ℚ)
    (hseg : seg ≠ []) (hv : v.length = seg.length + 1)
    (h : (battery_acc_constraint_func sind qexp fuel v seg slope lat lon).isSome
      = true)
    (hm : 0 ≤ ((battery_acc_constraint_func sind qexp fuel v seg slope lat
      lon).getD (0, -1)).2) :
    ∃ j, j < seg.length ∧
      seg_accel v seg j ≤ clip0 (seg_P_out v j) / (Mass * seg_avg v j) := by
  obtain ⟨PPO, hP⟩ := powers_of_funcG_isSome sind qexp fuel InitialBatteryCapacity
    SafeBatteryLevel v seg slope lat lon h
  have hinc := energy_increments_eq sind qexp fuel v seg slope lat lon PPO hP
  have hbp := battery_profileG_eq sind qexp fuel InitialBatteryCapacity SafeBatteryLevel
    v seg slope lat lon _ hinc
  have ham := acc_margins_eq sind fuel v seg slope PPO hP
  have hfc := constraint_funcG_some sind qexp fuel InitialBatteryCapacity
    SafeBatteryLevel v seg slope lat lon _ _ hbp ham
  obtain ⟨hlen, hget⟩ := calculate_power_vec_some sind fuel (avg_speeds v)
    (seg_accels v seg) slope PPO hP
  have hPPOlen : PPO.length = seg.length := by
    rw [hlen, avg_speeds_length, hv]
    omega
  have hm' : 0 ≤ listMax (zip3With (fun po sp a => clip0 po / (Mass * sp) - a)
      (PPO.map Prod.snd) (avg_speeds v) (seg_accels v seg)) := by
    have : (battery_acc_constraint_func sind qexp fuel v seg slope lat lon).getD
        (0, -1) = (listMin (((cumsum (zip3With (fun p s t => (p - s) * t)
          (PPO.map Prod.fst) (solar_powers qexp v seg lat lon)
          (seg_dts v seg))).map (fun e => e / 3600)).map
            (fun e => InitialBatteryCapacity - e - SafeBatteryLevel)),
          listMax (zip3With (fun po sp a => clip0 po / (Mass * sp) - a)
            (PPO.map Prod.snd) (avg_speeds v) (seg_accels v seg))) := by
      show (battery_acc_constraint_funcG sind qexp fuel InitialBatteryCapacity
        SafeBatteryLevel v seg slope lat lon).getD (0, -1) = _
      rw [hfc]
      rfl
    rwa [this] at hm
  have hamlen : (zip3With (fun po sp a => clip0 po / (Mass * sp) - a)
      (PPO.map Prod.snd) (avg_speeds v) (seg_accels v seg)).length = seg.length := by
    rw [zip3With_length, List.length_map, hPPOlen, avg_speeds_length, hv,
      seg_accels_length v seg hv]
    omega
  have hamne : zip3With (fun po sp a => clip0 po / (Mass * sp) - a)
      (PPO.map Prod.snd) (avg_speeds v) (seg_accels v seg) ≠ [] := by
    apply List.length_pos.mp
    rw [hamlen]
    exact List.length_pos.mpr hseg
  obtain ⟨j, hj, hjv⟩ := List.mem_iff_getElem.mp (listMax_mem _ hamne)
  have hjseg : j < seg.length := by rwa [hamlen] at hj
  refine ⟨j, hjseg, ?_⟩
  have hgd : (zip3With (fun po sp a => clip0 po / (Mass * sp) - a)
      (PPO.map Prod.snd) (avg_speeds v) (seg_accels v seg)).getD j 0 =
      clip0 ((PPO.map Prod.snd).getD j 0) / (Mass * (avg_speeds v).getD j 0) -
        (seg_accels v seg).getD j 0 := zip3With_getD _ _ _ _ j hj
  have hsnd : (PPO.map Prod.snd).getD j 0 = (PPO.getD j (0, 0)).2 :=
    mapSnd_getD PPO j (by rwa [hPPOlen])
  have havg : (avg_speeds v).getD j 0 = seg_avg v j := avg_speeds_getD v seg j hv hjseg
  have hacc : (seg_accels v seg).getD j 0 = seg_accel v seg j :=
    seg_accels_getD v seg j hv hjseg
  have hPO : (PPO.getD j (0, 0)).2 = seg_P_out v j := by
    have := calculate_power_snd_eq sind fuel ((avg_speeds v).getD j 0)
      ((seg_accels v seg).getD j 0) (slope.getD j 0) (PPO.getD j (0, 0))
      (hget j (by rwa [hPPOlen]))
    rw [havg] at this
    exact this
  have hmargin : 0 ≤ clip0 (seg_P_out v j) / (Mass * seg_avg v j) - seg_accel v seg j := by
    have hval : (zip3With (fun po sp a => clip0 po / (Mass * sp) - a)
        (PPO.map Prod.snd) (avg_speeds v) (seg_accels v seg)).getD j 0 =
        clip0 (seg_P_out v j) / (Mass * seg_avg v j) - seg_accel v seg j := by
      rw [hgd, hsnd, hPO, havg, hacc]
    rw [← hval, List.getD_eq_getElem _ _ hj, hjv]
    exact hm'
  linarith

/-- Witness for C1 (amended) at a route where the maximum margin is attained
on the decelerating second segment. -/
theorem C1_witness :
    ∃ j, j < ([1, 1] : List ℚ).length ∧
      seg_accel [0, 2, 0] [1, 1] j ≤
        clip0 (seg_P_out [0, 2, 0] j) / (Mass * seg_avg [0, 2, 0] j) :=
  C1_theorem (fun _ => 0) (fun _ => 0) 10 [0, 2, 0] [1, 1] [0, 0] [0, 0] [0, 0]
    (by decide) rfl (of_decide_eq_true (by with_unfolding_all rfl))
    (of_decide_eq_true (by with_unfolding_all rfl))

/-- C1 counterexample: on the two-segment route `[1, 1]` m with profile
`[0, 2, 0]` (flat slope, so `sind := fun _ => 0` agrees with the true sine;
the `qexp` stand-in only enters the battery component, not the margin), the
returned acceleration-margin component is ≥ 0, yet on segment 0 the
commanded acceleration exceeds the deliverable
`PO.clip(0)/(Mass·avg_speed)`: the returned maximum does not certify
feasibility across the entire route. -/
theorem C1_counterexample :
    0 ≤ ((battery_acc_constraint_func (fun _ => 0) (fun _ => 0) 10 [0, 2, 0] [1, 1]
        [0, 0] [0, 0] [0, 0]).getD (0, -1)).2 ∧
      ¬ (seg_accel [0, 2, 0] [1, 1] 0 ≤
          clip0 (seg_P_out [0, 2, 0] 0) / (Mass * seg_avg [0, 2, 0] 0)) :=
  ⟨of_decide_eq_true (by with_unfolding_all rfl),
    of_decide_eq_true (by with_unfolding_all rfl)⟩

end Agnirath

namespace Agnirath

/-- C4 (amended): each successive value of the cumulative battery trajectory
computed by battery_acc_constraint_func equals the previous one minus that
segment's net energy increment over 3600, where the increment is exactly
`(net_power − solar_power)·dt`; hence the trajectory is non-increasing at a
segment iff that increment is nonnegative, and strictly increases there iff
the increment is negative — as when incident solar power exceeds the clipped
net power over a segment of positive duration — so it is not monotonically
non-increasing in general (see `C4_counterexample`).  Stated per segment, for
any configured capacities through `battery_profileG`. -/
theorem C4_theorem (sind qexp : ℚ → ℚ) (fuel : ℕ) (initCap safeLvl : ℚ)
    (v seg slope lat lon : List ℚ)
    (h : (energy_increments sind qexp fuel v seg slope lat lon).isSome = true) :
    ∀ j, j + 1 < ((battery_profileG sind qexp fuel initCap safeLvl v seg slope lat
        lon).getD []).length →
      ((energy_increments sind qexp fuel v seg slope lat lon).getD []).getD (j + 1) 0 =
          ((((powers sind fuel v seg slope).getD []).map Prod.fst).getD (j + 1) 0 -
              (solar_powers qexp v seg lat lon).getD (j + 1) 0) *
            (seg_dts v seg).getD (j + 1) 0 ∧
        ((battery_profileG sind qexp fuel initCap safeLvl v seg slope lat lon).getD
            []).getD (j + 1) 0 =
          ((battery_profileG sind qexp fuel initCap safeLvl v seg slope lat lon).getD
            []).getD j 0 -
            ((energy_increments sind qexp fuel v seg slope lat lon).getD []).getD
              (j + 1) 0 / 3600 ∧
        (((battery_profileG sind qexp fuel initCap safeLvl v seg slope lat lon).getD
            []).getD (j + 1) 0 ≤
          ((battery_profileG sind qexp fuel initCap safeLvl v seg slope lat lon).getD
            []).getD j 0 ↔
          0 ≤ ((energy_increments sind qexp fuel v seg slope lat lon).getD []).getD
            (j + 1) 0) ∧
        (((battery_profileG sind qexp fuel initCap safeLvl v seg slope lat lon).getD
            []).getD j 0 <
          ((battery_profileG sind qexp fuel initCap safeLvl v seg slope lat lon).getD
            []).getD (j + 1) 0 ↔
          ((energy_increments sind qexp fuel v seg slope lat lon).getD []).getD
            (j + 1) 0 < 0) := by
  cases hP : powers sind fuel v seg slope with
  | none =>
    have : energy_increments sind qexp fuel v seg slope lat lon = none := by
      unfold energy_increments
      rw [hP]
    rw [this] at h
    exact absurd h (by simp)
  | some PPO =>
    have hinc := energy_increments_eq sind qexp fuel v seg slope lat lon PPO hP
    have hbp := battery_profileG_eq sind qexp fuel initCap safeLvl v seg slope lat lon
      _ hinc
    intro j hj
    rw [hbp] at hj
    simp only [Option.getD_some] at hj
    set E := zip3With (fun p s t => (p - s) * t) (PPO.map Prod.fst)
      (solar_powers qexp v seg lat lon) (seg_dts v seg) with hE
    have hjE : j + 1 < E.length := by
      rw [List.length_map, List.length_map, cumsum_length] at hj
      exact hj
    have hc0 : E.getD (j + 1) 0 = ((PPO.map Prod.fst).getD (j + 1) 0 -
        (solar_powers qexp v seg lat lon).getD (j + 1) 0) *
        (seg_dts v seg).getD (j + 1) 0 := zip3With_getD _ _ _ _ _ hjE
    have hjc : j + 1 < (cumsum E).length := by rwa [cumsum_length]
    have hjc0 : j < (cumsum E).length := by omega
    have hjm : j + 1 < ((cumsum E).map (fun e => e / 3600)).length := by
      rwa [List.length_map]
    have hjm0 : j < ((cumsum E).map (fun e => e / 3600)).length := by
      rw [List.length_map]
      omega
    have hgd1 : (cumsum E).getD (j + 1) 0 = (cumsum E).getD j 0 + E.getD (j + 1) 0 :=
      cumsumFrom_getD_succ E 0 j hjE
    rw [hbp, hinc]
    simp only [Option.getD_some]
    rw [map_getD _ _ _ hjm, map_getD _ _ _ hjm0, map_getD _ _ _ hjc,
      map_getD _ _ _ hjc0]
    refine ⟨hc0, ?_, ?_, ?_⟩
    · rw [hgd1]
      ring
    · constructor
      · intro hle
        linarith [hgd1]
      · intro hnn
        linarith [hgd1]
    · constructor
      · intro hlt
        linarith [hgd1]
      · intro hneg
        linarith [hgd1]

/-- Witness for C4 (amended) at a concrete route with zero solar stand-in:
the recurrence and both iff directions are exercised with the hypotheses
discharged concretely. -/
theorem C4_witness :
    (energy_increments (fun _ => 0) (fun _ => 0) 10 [0, 2, 0] [1, 1] [0, 0] [0, 0]
        [0, 0]).isSome = true ∧
      ∀ j, j + 1 < ((battery_profile (fun _ => 0) (fun _ => 0) 10 [0, 2, 0] [1, 1]
          [0, 0] [0, 0] [0, 0]).getD []).length →
        ((energy_increments (fun _ => 0) (fun _ => 0) 10 [0, 2, 0] [1, 1] [0, 0]
            [0, 0] [0, 0]).getD []).getD (j + 1) 0 =
            ((((powers (fun _ => 0) 10 [0, 2, 0] [1, 1] [0, 0]).getD []).map
                Prod.fst).getD (j + 1) 0 -
                (solar_powers (fun _ => 0) [0, 2, 0] [1, 1] [0, 0] [0, 0]).getD
                  (j + 1) 0) *
              (seg_dts [0, 2, 0] [1, 1]).getD (j + 1) 0 ∧
          ((battery_profile (fun _ => 0) (fun _ => 0) 10 [0, 2, 0] [1, 1] [0, 0]
              [0, 0] [0, 0]).getD []).getD (j + 1) 0 =
            ((battery_profile (fun _ => 0) (fun _ => 0) 10 [0, 2, 0] [1, 1] [0, 0]
              [0, 0] [0, 0]).getD []).getD j 0 -
              ((energy_increments (fun _ => 0) (fun _ => 0) 10 [0, 2, 0] [1, 1] [0, 0]
                [0, 0] [0, 0]).getD []).getD (j + 1) 0 / 3600 ∧
          (((battery_profile (fun _ => 0) (fun _ => 0) 10 [0, 2, 0] [1, 1] [0, 0]
              [0, 0] [0, 0]).getD []).getD (j + 1) 0 ≤
            ((battery_profile (fun _ => 0) (fun _ => 0) 10 [0, 2, 0] [1, 1] [0, 0]
              [0, 0] [0, 0]).getD []).getD j 0 ↔
            0 ≤ ((energy_increments (fun _ => 0) (fun _ => 0) 10 [0, 2, 0] [1, 1]
              [0, 0] [0, 0] [0, 0]).getD []).getD (j + 1) 0) ∧
          (((battery_profile (fun _ => 0) (fun _ => 0) 10 [0, 2, 0] [1, 1] [0, 0]
              [0, 0] [0, 0]).getD []).getD j 0 <
            ((battery_profile (fun _ => 0) (fun _ => 0) 10 [0, 2, 0] [1, 1] [0, 0]
              [0, 0] [0, 0]).getD []).getD (j + 1) 0 ↔
            ((energy_increments (fun _ => 0) (fun _ => 0) 10 [0, 2, 0] [1, 1] [0, 0]
              [0, 0] [0, 0]).getD []).getD (j + 1) 0 < 0) :=
  ⟨of_decide_eq_true (by with_unfolding_all rfl),
    C4_theorem (fun _ => 0) (fun _ => 0) 10 InitialBatteryCapacity SafeBatteryLevel
      [0, 2, 0] [1, 1] [0, 0] [0, 0] [0, 0]
      (of_decide_eq_true (by with_unfolding_all rfl))⟩

/-- C4 counterexample: a slow two-segment route timed so the second segment
sits exactly at the Gaussian peak (elapsed time 19508.735 s, where the
exponential argument is exactly 0, so `qexp := fun _ => 1` agrees with the
true exponential there; the stand-in's value on segment 1 cancels between
the two compared cumulative entries): solar power ≈ 1223 W exceeds the ≈ 1 W
net power, and the battery trajectory strictly increases from entry 0 to
entry 1 — it is not monotonically non-increasing. -/
theorem C4_counterexample :
    ((battery_profile (fun _ => 0) (fun _ => 1) 10 [0, 0.01, 0.01]
        [9508.735 * (0 + 0.01 + EPSILON) / 2, 10000 * (0.01 + 0.01 + EPSILON) / 2]
        [0, 0] [0, 0] [0, 0]).getD []).getD 0 0 <
      ((battery_profile (fun _ => 0) (fun _ => 1) 10 [0, 0.01, 0.01]
        [9508.735 * (0 + 0.01 + EPSILON) / 2, 10000 * (0.01 + 0.01 + EPSILON) / 2]
        [0, 0] [0, 0] [0, 0]).getD []).getD 1 0 :=
  of_decide_eq_true (by with_unfolding_all rfl)

end Agnirath

namespace Agnirath

/-- C5 (amended): when the configuration has `initCap < safeLvl`, the battery
margin returned by battery_acc_constraint_func is strictly negative provided
the first segment's net energy increment `(net_power − solar_power)·dt` is
nonnegative (i.e. solar gain does not exceed net consumption there).  The
unconditional claim fails: with enough solar gain on the first segment the
trajectory can climb back above the safety floor (see `C5_counterexample`). -/
theorem C5_theorem (sind qexp : ℚ → ℚ) (fuel : ℕ) (initCap safeLvl : ℚ)
    (v seg slope lat lon : List ℚ)
    (hseg : seg ≠ []) (hv : v.length = seg.length + 1)
    (hlat : lat.length = seg.length) (hlon : lon.length = seg.length)
    (hcap : initCap < safeLvl)
    (h : (battery_acc_constraint_funcG sind qexp fuel initCap safeLvl v seg slope
      lat lon).isSome = true)
    (hfirst : 0 ≤ ((energy_increments sind qexp fuel v seg slope lat lon).getD
      []).getD 0 0) :
    ((battery_acc_constraint_funcG sind qexp fuel initCap safeLvl v seg slope lat
      lon).getD (0, 0)).1 < 0 := by
  obtain ⟨PPO, hP⟩ := powers_of_funcG_isSome sind qexp fuel initCap safeLvl v seg
    slope lat lon h
  have hinc := energy_increments_eq sind qexp fuel v seg slope lat lon PPO hP
  have hbp := battery_profileG_eq sind qexp fuel initCap safeLvl v seg slope lat lon
    _ hinc
  have ham := acc_margins_eq sind fuel v seg slope PPO hP
  have hfc := constraint_funcG_some sind qexp fuel initCap safeLvl v seg slope lat
    lon _ _ hbp ham
  rw [hfc]
  simp only [Option.getD_some]
  set E := zip3With (fun p s t => (p - s) * t) (PPO.map Prod.fst)
    (solar_powers qexp v seg lat lon) (seg_dts v seg) with hE
  have hlenE : E.length = seg.length :=
    energy_increments_list_length sind qexp fuel v seg slope lat lon PPO hP hv hlat
      hlon
  have hpos : 0 < seg.length := List.length_pos.mpr hseg
  have hEne : E ≠ [] := by
    apply List.length_pos.mp
    rw [hlenE]
    exact hpos
  have h0c : (cumsum E).getD 0 0 = E.getD 0 0 := by
    have := cumsumFrom_getD_zero E 0 hEne
    rw [zero_add] at this
    exact this
  have hfirst' : 0 ≤ E.getD 0 0 := by
    rw [hinc] at hfirst
    simpa using hfirst
  have hlt : 0 < ((cumsum E).map (fun e => e / 3600)).length := by
    rw [List.length_map, cumsum_length, hlenE]
    exact hpos
  have hlt2 : 0 < (((cumsum E).map (fun e => e / 3600)).map
      (fun e => initCap - e - safeLvl)).length := by
    rwa [List.length_map]
  have hb0 : (((cumsum E).map (fun e => e / 3600)).map
      (fun e => initCap - e - safeLvl)).getD 0 0 =
      initCap - (cumsum E).getD 0 0 / 3600 - safeLvl := by
    rw [map_getD _ _ _ hlt, map_getD _ _ _ (by rw [cumsum_length, hlenE]; exact hpos)]
  have hmin := listMin_le_getD (((cumsum E).map (fun e => e / 3600)).map
      (fun e => initCap - e - safeLvl)) 0 hlt2
  rw [hb0, h0c] at hmin
  have : initCap - E.getD 0 0 / 3600 - safeLvl < 0 := by linarith
  linarith

/-- Witness for C5 (amended): a configured initial capacity of 610 Wh below a
611 Wh safety floor, zero solar stand-in, one short segment. -/
theorem C5_witness :
    ((battery_acc_constraint_funcG (fun _ => 0) (fun _ => 0) 10 610 611 [0, 2] [1]
      [0] [0] [0]).getD (0, 0)).1 < 0 :=
  C5_theorem (fun _ => 0) (fun _ => 0) 10 610 611 [0, 2] [1] [0] [0] [0]
    (by decide) rfl rfl rfl (by norm_num)
    (of_decide_eq_true (by with_unfolding_all rfl))
    (of_decide_eq_true (by with_unfolding_all rfl))

/-- C5 counterexample: with `initCap = 610 < 611 = safeLvl` (the claim's
boundary configuration) but a single slow 19508.735 s segment timed at the
Gaussian peak (exponential argument exactly 0, where `qexp := fun _ => 1`
agrees with the true exponential), the ≈ 6629 Wh of solar gain dwarfs the
≈ 5.6 Wh consumed, and the returned battery margin is strictly positive —
not negative as the claim requires for every profile and route. -/
theorem C5_counterexample :
    (610 : ℚ) < 611 ∧
      0 < ((battery_acc_constraint_funcG (fun _ => 0) (fun _ => 1) 10 610 611
        [0, 0.01] [19508.735 * (0 + 0.01 + EPSILON) / 2] [0] [0] [0]).getD
          (-1, 0)).1 :=
  ⟨by norm_num, of_decide_eq_true (by with_unfolding_all rfl)⟩

end Agnirath

namespace Agnirath

theorem thermalBody_third_eq (tou speed2 Twi : ℚ) :
    (thermalBody tou speed2 Twi).2.2 =
      0.455 * (3 * (0.561 * (1.6716 - 0.0006 * (Ta + Twi)) * tou) ^ 2 *
          (0.00022425 * Twi - 0.00820525) +
        9.602 * (1 / 10 ^ 6) * (((1.6716 - 0.0006 * (Ta + Twi)) / R_Out) ^ 2) /
          (0.00022425 * Twi - 0.00820525) * speed2) + Ta := rfl

/-- At the torque of speed 1000 m/s, one pass of the thermal loop at least
doubles any winding temperature that has reached 10⁶: the iteration runs
away instead of converging. -/
theorem thermal_next_double (T : ℚ) (hT : 10 ^ 6 ≤ T) :
    2 * T ≤ (thermalBody (frictional_tou + drag_coeff_wR2 * 1000 ^ 2)
      (1000 ^ 2) T).2.2 := by
  rw [thermalBody_third_eq]
  have hTa : Ta = (295 : ℚ) := rfl
  rw [hTa]
  set tou := frictional_tou + drag_coeff_wR2 * 1000 ^ 2 with htou
  have htouv : (15273 : ℚ) ≤ tou := by
    rw [htou]
    norm_num [frictional_tou, drag_coeff_wR2, drag_coeff, CDA, Cd, FrontalArea,
      AirDensity, R_Out, Mass, GravityAcc, ZeroSpeedCrr]
  clear_value tou
  have hT0 : (0 : ℚ) ≤ T := by linarith
  set B := 1.6716 - 0.0006 * (295 + T) with hB
  set R := 0.00022425 * T - 0.00820525 with hR
  clear_value B R
  have hBle : B ≤ -(0.0005 * T) := by
    rw [hB]
    linarith
  have hRge : 0.0002 * T ≤ R := by
    rw [hR]
    linarith
  have hRpos : 0 < R := by linarith
  have hB2 : (0.0005 * T) ^ 2 ≤ B ^ 2 := by
    have h1 : 0 ≤ -B - 0.0005 * T := by linarith
    have h2 : 0 ≤ -B + 0.0005 * T := by linarith
    nlinarith [mul_nonneg h1 h2]
  have hPe : 0 ≤ 9.602 * (1 / 10 ^ 6) * ((B / R_Out) ^ 2) / R * 1000 ^ 2 := by
    have h1 : (0 : ℚ) ≤ 9.602 * (1 / 10 ^ 6) * ((B / R_Out) ^ 2) := by positivity
    have h2 : (0 : ℚ) ≤ 9.602 * (1 / 10 ^ 6) * ((B / R_Out) ^ 2) / R :=
      div_nonneg h1 (le_of_lt hRpos)
    nlinarith [h2]
  have htou2 : (15273 : ℚ) ^ 2 ≤ tou ^ 2 := by nlinarith [htouv]
  have hq2 : (0 : ℚ) ≤ 0.0002 * T := by linarith
  have hq3 : (0 : ℚ) ≤ B ^ 2 := sq_nonneg _
  have hq4 : (0 : ℚ) ≤ (15273 : ℚ) ^ 2 := by positivity
  have hchain : (0.0005 * T) ^ 2 * 15273 ^ 2 * (0.0002 * T) ≤ B ^ 2 * tou ^ 2 * R :=
    mul_le_mul (mul_le_mul hB2 htou2 hq4 hq3) hRge hq2
      (mul_nonneg hq3 (sq_nonneg tou))
  have hPc : 0.944163 * ((0.0005 * T) ^ 2 * 15273 ^ 2 * (0.0002 * T)) ≤
      3 * (0.561 * B * tou) ^ 2 * R := by
    have e1 : 3 * (0.561 * B * tou) ^ 2 * R = 0.944163 * (B ^ 2 * tou ^ 2 * R) := by
      ring
    rw [e1]
    linarith [hchain]
  have hT2 : (10 : ℚ) ^ 12 ≤ T ^ 2 := by nlinarith [hT, hT0]
  have hT3 : (10 : ℚ) ^ 12 * T ≤ T ^ 3 := by nlinarith [hT2, hT0]
  have hPc2 : 0.011 * T ^ 3 ≤
      0.944163 * ((0.0005 * T) ^ 2 * 15273 ^ 2 * (0.0002 * T)) := by
    have e2 : 0.944163 * ((0.0005 * T) ^ 2 * 15273 ^ 2 * (0.0002 * T)) =
        0.944163 * (0.0005 ^ 2 * 15273 ^ 2 * 0.0002) * T ^ 3 := by ring
    rw [e2]
    have hc : (0.011 : ℚ) ≤ 0.944163 * (0.0005 ^ 2 * 15273 ^ 2 * 0.0002) := by
      norm_num
    exact mul_le_mul_of_nonneg_right hc (pow_nonneg hT0 3)
  set PcE := 3 * (0.561 * B * tou) ^ 2 * R with hPcE
  set PeE := 9.602 * (1 / 10 ^ 6) * ((B / R_Out) ^ 2) / R * 1000 ^ 2 with hPeE
  clear_value PcE PeE
  have hfin : 0.011 * T ^ 3 ≤ PcE := le_trans hPc2 hPc
  linarith [hfin, hPe, hT3, hT0]

/-- At speed 1000 m/s (zero acceleration and slope) the winding-temperature
iteration of calculate_power never satisfies its own convergence test: from
the ambient seed it jumps above 10⁶ K and then at least doubles every pass,
so the source's `while True:` loop never exits, for any iteration budget. -/
theorem thermalLoop_1000_none :
    ∀ (fuel : ℕ) (T : ℚ), T = Ta ∨ 10 ^ 6 ≤ T →
      thermalLoop (frictional_tou + drag_coeff_wR2 * 1000 ^ 2) (1000 ^ 2) fuel T =
        none := by
  intro fuel
  induction fuel with
  | zero => intro T _; rfl
  | succ fuel ih =>
    intro T hT
    have hnext : 10 ^ 6 ≤ (thermalBody (frictional_tou + drag_coeff_wR2 * 1000 ^ 2)
        (1000 ^ 2) T).2.2 := by
      rcases hT with rfl | hT
      · exact of_decide_eq_true (by with_unfolding_all rfl)
      · have hdb := thermal_next_double T hT
        set X := (thermalBody (frictional_tou + drag_coeff_wR2 * 1000 ^ 2)
          (1000 ^ 2) T).2.2 with hX
        clear_value X
        linarith
    have hcond : ¬ npabs ((thermalBody (frictional_tou + drag_coeff_wR2 * 1000 ^ 2)
        (1000 ^ 2) T).2.2 - T) < 0.001 := by
      rcases hT with rfl | hT
      · exact of_decide_eq_true (by with_unfolding_all rfl)
      · have hdb := thermal_next_double T hT
        set X := (thermalBody (frictional_tou + drag_coeff_wR2 * 1000 ^ 2)
          (1000 ^ 2) T).2.2 with hX
        clear_value X
        have hd : (0.001 : ℚ) ≤ X - T := by linarith
        unfold npabs
        rw [if_neg (by linarith)]
        linarith
    show (if npabs ((thermalBody (frictional_tou + drag_coeff_wR2 * 1000 ^ 2)
        (1000 ^ 2) T).2.2 - T) < 0.001 then
          some ((thermalBody (frictional_tou + drag_coeff_wR2 * 1000 ^ 2)
            (1000 ^ 2) T).1,
            (thermalBody (frictional_tou + drag_coeff_wR2 * 1000 ^ 2)
              (1000 ^ 2) T).2.1)
        else thermalLoop (frictional_tou + drag_coeff_wR2 * 1000 ^ 2) (1000 ^ 2)
          fuel ((thermalBody (frictional_tou + drag_coeff_wR2 * 1000 ^ 2)
            (1000 ^ 2) T).2.2)) = none
    rw [if_neg hcond]
    exact ih _ (Or.inr hnext)

/-- C3: the winding-temperature fixed-point iteration inside calculate_power
is NOT capped: at speed 1000 m/s, acceleration 0, slope 0, it diverges and
the source's unbounded `while True:` loop never exits — `calculate_power`
returns no value however many iterations (`fuel`) it is allowed, and no
`ThermalConvergenceError` (or any other report) exists in the code. -/
theorem C3_theorem (sind : ℚ → ℚ) (fuel : ℕ) :
    calculate_power sind fuel 1000 0 0 = none :=
  calculate_power_none_of_loop sind fuel 1000 0 0
    (thermalLoop_1000_none fuel Ta (Or.inl rfl))

end Agnirath
